import Mathlib

/-!
Verification of the MinecraftModsLocalizer translation core.

The Go sources are shallowly embedded: Go strings are Lean `String`s
(Go rune = Lean `Char`; every string operation below acts on rune
counts exactly as the corresponding Go call does), Go `float64` scores
are modelled as exact rationals, Go maps are modelled as association
lists iterated in list order (one admissible iteration order of the
nondeterministic Go map range), and the HTTP collaborator is an opaque
oracle function, as the specification treats it.
-/

namespace MML

/-! ## SimilarityMatcher (pkg/translators: levenshteinDistance, min, calculateSimilarity) -/

/-- Embeds the Go helper `min(a, b, c int) int`. -/
def min3 (a b c : Nat) : Nat :=
  if a < b then (if a < c then a else c) else (if b < c then b else c)

/-- The dynamic-programming recurrence filled into `matrix` by
`levenshteinDistance`: `matrix[i][j] = min(matrix[i-1][j]+1,
matrix[i][j-1]+1, matrix[i-1][j-1]+cost)` with border `matrix[i][0] = i`,
`matrix[0][j] = j`, written as a recursion on the two rune lists.  The
`fuel` argument only makes the recursion structural; any
`fuel ≥ |s1| + |s2|` computes the matrix value (see `levFuel_irrel`). -/
def levFuel : Nat → List Char → List Char → Nat
  | _, [], ys => ys.length
  | _, x :: xs, [] => (x :: xs).length
  | 0, _ :: _, _ :: _ => 0
  | fuel + 1, x :: xs, y :: ys =>
      min3 (levFuel fuel xs (y :: ys) + 1)
           (levFuel fuel (x :: xs) ys + 1)
           (levFuel fuel xs ys + (if x = y then 0 else 1))

/-- Embeds `levenshteinDistance(s1, s2 string) int`: the classic
insert/delete/substitute cost-1 edit distance between the rune sequences
of the two strings (`utf8.RuneCountInString` counts the `.data` list). -/
def levenshteinDistance (s1 s2 : String) : Nat :=
  levFuel (s1.data.length + s2.data.length) s1.data s2.data

/-- Embeds `calculateSimilarity(s1, s2 string) float64`; the float score
is modelled as an exact rational, and `math.Max` over the two rune
counts is computed as the `Nat` maximum before the cast (same value). -/
def calculateSimilarity (s1 s2 : String) : ℚ :=
  if Nat.max s1.data.length s2.data.length = 0 then 1
  else 1 - (levenshteinDistance s1 s2 : ℚ) /
    (Nat.max s1.data.length s2.data.length : ℚ)

/-! ## TermDictionary (pkg/translators: TermDictionary, GetTranslation,
AddTerm, FindSimilarExamples) -/

/-- Embeds `TranslationExample` of pkg/translators/types.go. -/
structure TranslationExample where
  Original    : String
  Translation : String
  Language    : String
deriving DecidableEq, Repr

/-- Embeds `SimilarityMatch` of pkg/translators/types.go; the float
score is an exact rational. -/
structure SimilarityMatch where
  Example    : TranslationExample
  Similarity : ℚ
deriving DecidableEq, Repr

/-- Embeds `TermDictionary`; the two nested Go maps are association
lists (first binding wins on lookup, matching one-binding-per-key maps). -/
structure TermDictionary where
  Terms : List (String × List (String × String))
deriving DecidableEq, Repr

/-- Go map read `m[k]`. -/
def lookupAssoc {β : Type} (l : List (String × β)) (k : String) : Option β :=
  match l.find? (fun p => p.1 == k) with
  | some p => some p.2
  | none => none

/-- Go map write `m[k] = v`: replace the binding if present, else add it. -/
def setAssoc {β : Type} : List (String × β) → String → β → List (String × β)
  | [], k, v => [(k, v)]
  | (k0, v0) :: rest, k, v =>
    if k0 = k then (k, v) :: rest else (k0, v0) :: setAssoc rest k v

/-- Embeds `(td *TermDictionary) GetTranslation(original, targetLang)`. -/
def TermDictionary.GetTranslation (td : TermDictionary)
    (original targetLang : String) : Option String :=
  match lookupAssoc td.Terms targetLang with
  | some langTerms => lookupAssoc langTerms original
  | none => none

/-- Embeds `(td *TermDictionary) AddTerm(original, targetLang, translation)`. -/
def TermDictionary.AddTerm (td : TermDictionary)
    (original targetLang translation : String) : TermDictionary :=
  ⟨setAssoc td.Terms targetLang
    (setAssoc ((lookupAssoc td.Terms targetLang).getD []) original translation)⟩

/-- One insertion step of the sort performed by the processor's
`sort.Slice` call comparing `Similarity` fields with `>`. -/
def insertDescBySim (m : SimilarityMatch) :
    List SimilarityMatch → List SimilarityMatch
  | [] => [m]
  | h :: t =>
    if h.Similarity < m.Similarity then m :: h :: t else h :: insertDescBySim m t

/-- The `sort.Slice` call of `FindSimilarExamples`, modelled as an
insertion sort into non-increasing score order (Go leaves the order of
equal scores unspecified; any non-increasing arrangement is admissible). -/
def sortBySimilarityDesc (l : List SimilarityMatch) : List SimilarityMatch :=
  l.foldr insertDescBySim []

/-- Embeds `(td *TermDictionary) FindSimilarExamples(text, targetLang,
threshold, maxResults)`.  `maxResults` is a Go `int`; all call sites pass
the constant 3, and the final truncating reslice is only meaningful for a
non-negative bound, so it is modelled as `Nat`. -/
def TermDictionary.FindSimilarExamples (td : TermDictionary)
    (text targetLang : String) (threshold : ℚ) (maxResults : Nat) :
    List SimilarityMatch :=
  let ms : List SimilarityMatch :=
    match lookupAssoc td.Terms targetLang with
    | some langTerms =>
      langTerms.filterMap (fun p =>
        if threshold ≤ calculateSimilarity text p.1 then
          some ⟨⟨p.1, p.2, targetLang⟩, calculateSimilarity text p.1⟩
        else none)
    | none => []
  let sorted := sortBySimilarityDesc ms
  if maxResults < sorted.length then sorted.take maxResults else sorted

/-! ## ResponseCodec and batch driver (pkg/translators/openai.go:
parseBatchResponse, TranslateBatchWithKeys; pkg/translators/types.go:
BatchTranslationResult, ValidationResult, ValidateBatchResults) -/

/-- Embeds `ValidationResult` of pkg/translators/types.go. -/
structure ValidationResult where
  IsValid       : Bool
  MissingInputs : List String
  MissingCount  : Nat
deriving DecidableEq, Repr

/-- Embeds `BatchTranslationResult` of pkg/translators/types.go.  The
`Validation` pointer field is never assigned anywhere in the sources, so
it is carried as an `Option` that stays `none`. -/
structure BatchTranslationResult where
  Input      : String
  Output     : String
  IsValid    : Bool
  Error      : String
  Validation : Option ValidationResult
deriving DecidableEq, Repr

/-- The rune predicate of Go `unicode.IsSpace` (the characters
`strings.TrimSpace` strips): ASCII whitespace plus the Unicode
White_Space code points. -/
def goIsSpace (c : Char) : Bool :=
  c == ' ' || c == '\t' || c == '\n' || c == Char.ofNat 11 ||
  c == Char.ofNat 12 || c == '\r' || c == Char.ofNat 0x85 ||
  c == Char.ofNat 0xA0 || c == Char.ofNat 0x1680 ||
  (0x2000 ≤ c.toNat && c.toNat ≤ 0x200A) || c == Char.ofNat 0x2028 ||
  c == Char.ofNat 0x2029 || c == Char.ofNat 0x202F ||
  c == Char.ofNat 0x205F || c == Char.ofNat 0x3000

/-- Embeds `strings.TrimSpace`. -/
def trimGo (s : String) : String :=
  String.mk (((s.data.dropWhile goIsSpace).reverse.dropWhile goIsSpace).reverse)

/-- Recursion underlying `strings.Split(s, "\n")`. -/
def splitNlAux : List Char → List Char → List String
  | [], acc => [String.mk acc.reverse]
  | c :: cs, acc =>
    if c = '\n' then String.mk acc.reverse :: splitNlAux cs []
    else splitNlAux cs (c :: acc)

/-- Embeds `strings.Split(response, "\n")`. -/
def splitNl (s : String) : List String := splitNlAux s.data []

/-- The `(output, isValid, errorMsg)` triple assembled for a decoded
line: the validity recomputation `output != "" && output != input`
shared by the plain-text and key-value branches. -/
def plainTriple (o input : String) : String × Bool × String :=
  (o, o != "" && o != input, "")

/-- The key-value branch of the decoding loop: split on the first
colon, take the value part, strip one surrounding quote layer.  Byte
indices of the Go code (`strings.Index` for the first colon, the first
and last byte when stripping quotes) fall on rune boundaries for the
characters involved, so the rune-level operations decide exactly the
same branches. -/
def parseKVTriple (lineContent input : String) : String × Bool × String :=
  match lineContent.data.findIdx? (fun c => c == ':') with
  | some ci =>
    if 0 < ci then
      let valuePart := trimGo (String.mk (lineContent.data.drop (ci + 1)))
      let output :=
        if 2 ≤ valuePart.data.length ∧ valuePart.data.head? = some '\"' ∧
            valuePart.data.getLast? = some '\"' then
          String.mk ((valuePart.data.drop 1).dropLast)
        else valuePart
      plainTriple output input
    else plainTriple lineContent input
  | none => plainTriple lineContent input

/-- The `(output, isValid, errorMsg)` triple the body of the
`for i, input := range inputs` loop of `parseBatchResponse` computes for
one item. -/
def parseItemFields (keysMatch : Bool) (lines : List String) (i : Nat)
    (input : String) : String × Bool × String :=
  match lines.get? i with
  | none => (input, false, "Missing translation in response")
  | some rawLine =>
    if (toString (i + 1) ++ ".").data.isPrefixOf (trimGo rawLine).data then
      if keysMatch then
        parseKVTriple (trimGo (String.mk ((trimGo rawLine).data.drop
          (toString (i + 1) ++ ".").data.length))) input
      else
        plainTriple (trimGo (String.mk ((trimGo rawLine).data.drop
          (toString (i + 1) ++ ".").data.length))) input
    else (input, false, "Failed to parse translation from response")

/-- One `BatchTranslationResult` appended by the loop of
`parseBatchResponse`. -/
def parseItem (keysMatch : Bool) (lines : List String) (i : Nat)
    (input : String) : BatchTranslationResult :=
  ⟨input, (parseItemFields keysMatch lines i input).1,
    (parseItemFields keysMatch lines i input).2.1,
    (parseItemFields keysMatch lines i input).2.2, none⟩

/-- Embeds `(t *OpenAITranslator) parseBatchResponse(keys, inputs,
response)`; `keys = none` is the Go `nil` slice. -/
def parseBatchResponse (keys : Option (List String)) (inputs : List String)
    (response : String) : List BatchTranslationResult :=
  let lines := splitNl response
  let keysMatch : Bool :=
    match keys with
    | some ks => ks.length == inputs.length
    | none => false
  inputs.enum.map (fun p => parseItem keysMatch lines p.1 p.2)

/-- Embeds `ValidateBatchResults(inputs, results)` of
pkg/translators/types.go; the Go set of distinct input texts is the
deduplicated list. -/
def ValidateBatchResults (inputs : List String)
    (results : List BatchTranslationResult) : ValidationResult :=
  let missing := inputs.dedup.filter
    (fun i => !(results.any (fun r => r.Input == i)))
  ⟨missing.length == 0, missing, missing.length⟩

/-- The per-missing-input retry loop at the end of
`TranslateBatchWithKeys`; `singleO` is the opaque single-item
translation collaborator (`t.Translate`). -/
def retryLoop (singleO : String → Except String String) :
    List String → List BatchTranslationResult
  | [] => []
  | m :: rest =>
    (match singleO m with
     | .error e => (⟨m, m, false, e, none⟩ : BatchTranslationResult)
     | .ok s => (⟨m, s, true, "", none⟩ : BatchTranslationResult)) ::
    retryLoop singleO rest

/-- The `for len(texts) > 0` chunking loop of `TranslateBatchWithKeys`;
`chunkO` is the opaque `translateBatchChunk` collaborator (HTTP call
plus response decoding).  The loop consumes at least one text per
iteration (the normalized batch size is at least 1), so `fuel =
texts.length` iterations reproduce it exactly. -/
def chunkLoopF (chunkO : Option (List String) → List String →
    Except String (List BatchTranslationResult)) :
    Nat → Option (List String) → List String → Nat →
    List BatchTranslationResult
  | _, _, [], _ => []
  | 0, _, _ :: _, _ => []
  | fuel + 1, keys, t :: ts, bs =>
    (match chunkO (keys.map (fun ks => ks.take (Nat.min bs (t :: ts).length)))
        ((t :: ts).take (Nat.min bs (t :: ts).length)) with
     | .error e =>
       ((t :: ts).take (Nat.min bs (t :: ts).length)).map
         (fun t0 => (⟨t0, t0, false, e, none⟩ : BatchTranslationResult))
     | .ok rs => rs) ++
    chunkLoopF chunkO fuel
      (keys.map (fun ks => ks.drop (Nat.min bs (t :: ts).length)))
      ((t :: ts).drop (Nat.min bs (t :: ts).length)) bs

/-- The tail of `TranslateBatchWithKeys` after its guards: run all
chunks, validate the accumulated results against their own `Input`
fields, and retry whatever that validation reports missing. -/
def runBatch (chunkO : Option (List String) → List String →
    Except String (List BatchTranslationResult))
    (singleO : String → Except String String)
    (keys : Option (List String)) (texts : List String) (bs : Nat) :
    List BatchTranslationResult :=
  let results := chunkLoopF chunkO texts.length keys texts bs
  let validation := ValidateBatchResults
    (results.map (fun r => r.Input)) results
  if validation.IsValid then results
  else results ++ retryLoop singleO validation.MissingInputs

/-- Embeds `(t *OpenAITranslator) TranslateBatchWithKeys(keys, texts,
targetLang, batchSize)`.  `apiKey` stands for `t.APIKey`; the target
language only feeds the prompt built inside the opaque chunk
collaborator, so it is absorbed into `chunkO` and `singleO`. -/
def TranslateBatchWithKeys (apiKey : String)
    (chunkO : Option (List String) → List String →
      Except String (List BatchTranslationResult))
    (singleO : String → Except String String)
    (keys : Option (List String)) (texts : List String) (batchSize : Int) :
    Except String (List BatchTranslationResult) :=
  if apiKey = "" then
    .error "API key not found. Set OPENAI_API_KEY or ANTHROPIC_API_KEY environment variable"
  else
    match keys with
    | some ks =>
      if ks.length ≠ texts.length then
        .error ("number of keys (" ++ toString ks.length ++
          ") must match number of texts (" ++ toString texts.length ++ ")")
      else
        .ok (runBatch chunkO singleO (some ks) texts
          (if batchSize ≤ 0 then 1 else batchSize).toNat)
    | none =>
      .ok (runBatch chunkO singleO none texts
        (if batchSize ≤ 0 then 1 else batchSize).toNat)

/-! ## QuestSchemaAdapter, NBT dialect (pkg/parsers/betterquesting.go:
ExtractNBTBetterQuestingTranslations, ApplyNBTBetterQuestingTranslations) -/

/-- A decoded JSON document (the Go empty-interface value produced by
`json.Unmarshal`): objects are association lists in one iteration
order; numbers are exact rationals standing in for `float64`. -/
inductive JValue where
  | null : JValue
  | bool (b : Bool) : JValue
  | num (q : ℚ) : JValue
  | str (s : String) : JValue
  | arr (elems : List JValue) : JValue
  | obj (fields : List (String × JValue)) : JValue
deriving Repr

/-- The regexp test `^<base>:\d+$` used for the NBT-tagged key probes. -/
def isTaggedKey (base key : String) : Bool :=
  (base ++ ":").data.isPrefixOf key.data &&
  (let rest := key.data.drop (base ++ ":").data.length
   !rest.isEmpty && rest.all (fun c => c.isDigit))

/-- The `for key, value := range m` scan taking the first key matching
`^<base>:\d+$` whose value is a JSON object, continuing the scan when
the value has another shape. -/
def findTaggedObj (base : String) :
    List (String × JValue) → Option (String × List (String × JValue))
  | [] => none
  | (k, v) :: rest =>
    if isTaggedKey base k then
      match v with
      | .obj fields => some (k, fields)
      | _ => findTaggedObj base rest
    else findTaggedObj base rest

/-- One quest's contribution to `ExtractNBTBetterQuestingTranslations`:
read `name:8` and `desc:8` out of the `betterquesting:<n>` section of
the `properties:<n>` section, keeping only non-empty strings. -/
def extractQuestNBT (questID : String) (questData : JValue) :
    List (String × String) :=
  match questData with
  | .obj questMap =>
    match findTaggedObj "properties" questMap with
    | some (_, props) =>
      match findTaggedObj "betterquesting" props with
      | some (_, bq) =>
        (match lookupAssoc bq "name:8" with
         | some (.str s) =>
           if s ≠ "" then [("quest." ++ questID ++ ".name", s)] else []
         | _ => []) ++
        (match lookupAssoc bq "desc:8" with
         | some (.str s) =>
           if s ≠ "" then [("quest." ++ questID ++ ".description", s)] else []
         | _ => [])
      | none => []
    | none => []
  | _ => []

/-- The pure core of `ExtractNBTBetterQuestingTranslations` (file
reading and JSON decoding happen at the call boundary): find the
`questDatabase:<n>` object and extract every quest. -/
def extractNBT (rawData : List (String × JValue)) : List (String × String) :=
  match findTaggedObj "questDatabase" rawData with
  | some (_, questDatabase) =>
    questDatabase.foldl (fun acc p => acc ++ extractQuestNBT p.1 p.2) []
  | none => []

/-- One quest's update in `ApplyNBTBetterQuestingTranslations`: write
the translated `name:8` / `desc:8` fields (Go map assignment inserts
when absent) and store the nested containers back into their parents. -/
def applyQuestNBT (translations : List (String × String))
    (questID : String) (questData : JValue) : JValue :=
  match questData with
  | .obj questMap =>
    match findTaggedObj "properties" questMap with
    | some (propsKey, props) =>
      match findTaggedObj "betterquesting" props with
      | some (bqKey, bq) =>
        let bq1 :=
          match lookupAssoc translations ("quest." ++ questID ++ ".name") with
          | some t => setAssoc bq "name:8" (.str t)
          | none => bq
        let bq2 :=
          match lookupAssoc translations
              ("quest." ++ questID ++ ".description") with
          | some t => setAssoc bq1 "desc:8" (.str t)
          | none => bq1
        .obj (setAssoc questMap propsKey (.obj (setAssoc props bqKey (.obj bq2))))
      | none => questData
    | none => questData
  | _ => questData

/-- The pure core of `ApplyNBTBetterQuestingTranslations` before the
document is re-serialized: update every quest of the
`questDatabase:<n>` object in place. -/
def applyNBT (rawData : List (String × JValue))
    (translations : List (String × String)) : List (String × JValue) :=
  match findTaggedObj "questDatabase" rawData with
  | some (qdbKey, questDatabase) =>
    setAssoc rawData qdbKey
      (.obj (questDatabase.map
        (fun p => (p.1, applyQuestNBT translations p.1 p.2))))
  | none => rawData

/-! ## Translation orchestration (TranslateDataWithSimilarity of the
processors package) -/

/-- The translator collaborator seen by `TranslateDataWithSimilarity`.
The `openai` case models `*OpenAITranslator` (the Go type switch
`translator.(*OpenAITranslator)` selects it): `batchO` stands for the
batch method `TranslateBatchWithKeysProgressAndCallback(pendingKeys,
pendingTexts, targetLang, batchSize, ...)`, whose body is not among the
sources.  Modelled from the spec: progress and per-batch dictionary
callbacks are observational only and must not affect translation
outcomes (spec section 4.4), so the batch call is an opaque function of
its data arguments; `singleO` stands for `TranslateWithExamples` (and
`Translate text lang = TranslateWithExamples text lang nil`).  The
`generic` case is any other `Translator` implementation with its
`Translate` method. -/
inductive Translator where
  | openai
      (batchO : List String → List String → String → Int →
        Except String (List BatchTranslationResult))
      (singleO : String → String → List SimilarityMatch →
        Except String String)
  | generic (tr : String → String → Except String String)

/-- The first `for key, value := range data` loop of the batch branch:
dictionary hits go straight into `result`; misses accumulate
`pendingTexts`, `pendingKeys` and `pendingValues` (in iteration order).
Returns `(hits, pendingTexts, pendingKeys, pendingValues)`. -/
def partitionPending (dict : TermDictionary) (targetLang : String) :
    List (String × String) →
    List (String × String) × List String × List String × List String
  | [] => ([], [], [], [])
  | (key, value) :: rest =>
    match partitionPending dict targetLang rest with
    | (hits, pts, pks, pvs) =>
      match dict.GetTranslation value targetLang with
      | some t => ((key, t) :: hits, pts, pks, pvs)
      | none => (hits, value :: pts, key :: pks, value :: pvs)

/-- The `resultMap[batchResult.Input] = batchResult` map built over the
batch results in slice order: a later result for the same input
overwrites an earlier one, so lookup returns the last occurrence. -/
def lookupLastResult (rs : List BatchTranslationResult) (v : String) :
    Option BatchTranslationResult :=
  rs.reverse.find? (fun r => r.Input == v)

/-- The `for i, key := range pendingKeys` loop assembling the batch
branch's output: each key is bound to the looked-up translation when it
is valid, and falls back to the original value otherwise (also when no
result was found for the text). -/
def assignPending (find : String → Option BatchTranslationResult) :
    List String → List String → List (String × String)
  | key :: ks, value :: vs =>
    (key,
      match find value with
      | some r => if r.IsValid then r.Output else value
      | none => value) :: assignPending find ks vs
  | _, _ => []

/-- The fallback loop of the batch branch for non-OpenAI translators:
translate each pending text individually, passing the original value
through on error.  (The dictionary writes performed on success feed
only the final best-effort save, not the returned mapping.) -/
def assignPendingGeneric (tr : String → String → Except String String)
    (targetLang : String) :
    List String → List String → List (String × String)
  | value :: vs, key :: ks =>
    (key,
      match tr value targetLang with
      | .error _ => value
      | .ok t => t) :: assignPendingGeneric tr targetLang vs ks
  | _, _ => []

/-- The `batchSize <= 1` branch: sequential per-item translation with
exact dictionary lookup first, then up to 3 similarity examples for an
OpenAI translator, threading the dictionary updates through. -/
def singleLoop (translator : Translator) (targetLang : String)
    (similarityThreshold : ℚ) :
    TermDictionary → List (String × String) → List (String × String)
  | _, [] => []
  | dict, (key, value) :: rest =>
    match dict.GetTranslation value targetLang with
    | some t => (key, t) :: singleLoop translator targetLang
        similarityThreshold dict rest
    | none =>
      match
        (match translator with
         | .openai _ singleO =>
           if (dict.FindSimilarExamples value targetLang
               similarityThreshold 3).isEmpty then
             singleO value targetLang []
           else
             singleO value targetLang
               (dict.FindSimilarExamples value targetLang
                 similarityThreshold 3)
         | .generic tr => tr value targetLang) with
      | .error _ => (key, value) :: singleLoop translator targetLang
          similarityThreshold dict rest
      | .ok t => (key, t) :: singleLoop translator targetLang
          similarityThreshold (dict.AddTerm value targetLang t) rest

/-- Embeds `TranslateDataWithSimilarity(data, translator, targetLang,
similarityThreshold, batchSize)`.  `data` is the key→text map in one
iteration order; `dict0` is the dictionary state `LoadFromFile` read
(the end-of-run save is a best-effort side effect outside the returned
mapping). -/
def TranslateDataWithSimilarity (data : List (String × String))
    (translator : Translator) (targetLang : String)
    (similarityThreshold : ℚ) (batchSize : Int) (dict0 : TermDictionary) :
    Except String (List (String × String)) :=
  if 1 < batchSize then
    match partitionPending dict0 targetLang data with
    | (hits, pendingTexts, pendingKeys, pendingValues) =>
      if pendingTexts.isEmpty then .ok hits
      else
        match translator with
        | .openai batchO _ =>
          match batchO pendingKeys pendingTexts targetLang batchSize with
          | .error e => .error ("batch translation failed: " ++ e)
          | .ok batchResults =>
            .ok (hits ++ assignPending (lookupLastResult batchResults)
              pendingKeys pendingValues)
        | .generic tr =>
          .ok (hits ++ assignPendingGeneric tr targetLang
            pendingTexts pendingKeys)
  else
    .ok (singleLoop translator targetLang similarityThreshold dict0 data)

end MML

namespace MML

theorem levFuel_irrel (f : Nat) : ∀ (g : Nat) (xs ys : List Char),
    xs.length + ys.length ≤ f → xs.length + ys.length ≤ g →
    levFuel f xs ys = levFuel g xs ys := by
  induction f with
  | zero =>
    intro g xs ys hf _
    match xs, ys with
    | [], ys => cases g <;> rfl
    | x :: xs, [] => cases g <;> rfl
    | x :: xs, y :: ys => simp at hf
  | succ f ih =>
    intro g xs ys hf hg
    match xs, ys with
    | [], ys => cases g <;> rfl
    | x :: xs, [] => cases g <;> rfl
    | x :: xs, y :: ys =>
      match g with
      | 0 => simp at hg
      | g + 1 =>
        simp only [levFuel]
        simp only [List.length_cons] at hf hg
        rw [ih g xs (y :: ys) (by simp; omega) (by simp; omega),
            ih g (x :: xs) ys (by simp; omega) (by simp; omega),
            ih g xs ys (by omega) (by omega)]

theorem min3_le_right (a b c : Nat) : min3 a b c ≤ c := by
  unfold min3; split <;> split <;> omega

theorem min3_le_left (a b c : Nat) : min3 a b c ≤ a := by
  unfold min3; split <;> split <;> omega

/-- The distance never exceeds the longer rune count. -/
theorem levFuel_le_max (f : Nat) : ∀ (xs ys : List Char),
    xs.length + ys.length ≤ f →
    levFuel f xs ys ≤ max xs.length ys.length := by
  induction f with
  | zero =>
    intro xs ys hf
    match xs, ys with
    | [], ys => simp [levFuel]
    | x :: xs, [] => simp [levFuel]
    | x :: xs, y :: ys => simp at hf
  | succ f ih =>
    intro xs ys hf
    match xs, ys with
    | [], ys => simp [levFuel]
    | x :: xs, [] => simp [levFuel]
    | x :: xs, y :: ys =>
      simp only [List.length_cons] at hf
      have h3 := min3_le_right (levFuel f xs (y :: ys) + 1)
        (levFuel f (x :: xs) ys + 1)
        (levFuel f xs ys + (if x = y then 0 else 1))
      have hrec := ih xs ys (by omega)
      have hcost : (if x = y then 0 else 1) ≤ 1 := by split <;> omega
      simp only [levFuel, List.length_cons]
      calc min3 (levFuel f xs (y :: ys) + 1) (levFuel f (x :: xs) ys + 1)
              (levFuel f xs ys + (if x = y then 0 else 1))
          ≤ levFuel f xs ys + (if x = y then 0 else 1) := h3
        _ ≤ max xs.length ys.length + 1 := by omega
        _ ≤ max (xs.length + 1) (ys.length + 1) := by omega

theorem levenshteinDistance_le_max (s1 s2 : String) :
    levenshteinDistance s1 s2 ≤ max s1.data.length s2.data.length :=
  levFuel_le_max _ s1.data s2.data le_rfl

theorem levenshteinDistance_nil_left (ys : List Char) :
    levenshteinDistance (String.mk []) (String.mk ys) = ys.length := by
  cases ys <;> rfl

theorem levenshteinDistance_nil_right (xs : List Char) :
    levenshteinDistance (String.mk xs) (String.mk []) = xs.length := by
  cases xs <;> rfl

/-- The embedded distance satisfies the classic three-way recurrence the
Go inner loop fills into the matrix. -/
theorem levenshteinDistance_cons_cons (x y : Char) (xs ys : List Char) :
    levenshteinDistance (String.mk (x :: xs)) (String.mk (y :: ys)) =
      min3 (levenshteinDistance (String.mk xs) (String.mk (y :: ys)) + 1)
           (levenshteinDistance (String.mk (x :: xs)) (String.mk ys) + 1)
           (levenshteinDistance (String.mk xs) (String.mk ys) +
             (if x = y then 0 else 1)) := by
  show levFuel ((x :: xs).length + (y :: ys).length) (x :: xs) (y :: ys) = _
  have hstep :
      levFuel ((x :: xs).length + (y :: ys).length) (x :: xs) (y :: ys) =
        min3 (levFuel (xs.length + ys.length + 1) xs (y :: ys) + 1)
             (levFuel (xs.length + ys.length + 1) (x :: xs) ys + 1)
             (levFuel (xs.length + ys.length + 1) xs ys +
               (if x = y then 0 else 1)) := by
    have harith : (x :: xs).length + (y :: ys).length
        = (xs.length + ys.length + 1) + 1 := by simp; omega
    rw [harith]
    rfl
  rw [hstep,
    levFuel_irrel (xs.length + ys.length + 1) (xs.length + (y :: ys).length)
      xs (y :: ys) (by simp only [List.length_cons]; omega)
      (by simp only [List.length_cons]; omega),
    levFuel_irrel (xs.length + ys.length + 1) ((x :: xs).length + ys.length)
      (x :: xs) ys (by simp only [List.length_cons]; omega)
      (by simp only [List.length_cons]; omega),
    levFuel_irrel (xs.length + ys.length + 1) (xs.length + ys.length)
      xs ys (by omega) (by omega)]
  rfl

/-- C5: `similarity(a, b)` equals `1 − levenshteinDistance(a,b) /
max(len(a), len(b))` with lengths and distance counted in runes, is `1`
when both strings are empty, always lies in `[0, 1]`, and the distance
is the classic insert/delete/substitute cost-1 edit distance (base
cases and three-way recurrence). -/
theorem claim5_similarity_contract (a b : String) :
    (0 ≤ calculateSimilarity a b ∧ calculateSimilarity a b ≤ 1) ∧
    calculateSimilarity (String.mk []) (String.mk []) = 1 ∧
    (Nat.max a.data.length b.data.length ≠ 0 →
      calculateSimilarity a b =
        1 - (levenshteinDistance a b : ℚ) /
          (Nat.max a.data.length b.data.length : ℚ)) ∧
    (∀ (x y : Char) (xs ys : List Char),
      levenshteinDistance (String.mk []) (String.mk ys) = ys.length ∧
      levenshteinDistance (String.mk xs) (String.mk []) = xs.length ∧
      levenshteinDistance (String.mk (x :: xs)) (String.mk (y :: ys)) =
        min3 (levenshteinDistance (String.mk xs) (String.mk (y :: ys)) + 1)
             (levenshteinDistance (String.mk (x :: xs)) (String.mk ys) + 1)
             (levenshteinDistance (String.mk xs) (String.mk ys) +
               (if x = y then 0 else 1))) := by
  refine ⟨?_, by rfl, fun hne => by simp only [calculateSimilarity, if_neg hne],
    fun x y xs ys => ⟨levenshteinDistance_nil_left ys,
      levenshteinDistance_nil_right xs, levenshteinDistance_cons_cons x y xs ys⟩⟩
  by_cases h0 : Nat.max a.data.length b.data.length = 0
  · unfold calculateSimilarity
    rw [if_pos h0]
    norm_num
  · have hm : (0 : ℚ) < (Nat.max a.data.length b.data.length : ℚ) := by
      exact_mod_cast Nat.pos_of_ne_zero h0
    have hd : (levenshteinDistance a b : ℚ)
        ≤ (Nat.max a.data.length b.data.length : ℚ) := by
      exact_mod_cast levenshteinDistance_le_max a b
    have hdiv0 : (0 : ℚ) ≤ (levenshteinDistance a b : ℚ) /
        (Nat.max a.data.length b.data.length : ℚ) :=
      div_nonneg (by positivity) (le_of_lt hm)
    have hdiv1 : (levenshteinDistance a b : ℚ) /
        (Nat.max a.data.length b.data.length : ℚ) ≤ 1 :=
      (div_le_one hm).mpr hd
    constructor
    · unfold calculateSimilarity
      rw [if_neg h0]
      linarith
    · unfold calculateSimilarity
      rw [if_neg h0]
      linarith

theorem mem_insertDescBySim (x m : SimilarityMatch) (l : List SimilarityMatch) :
    x ∈ insertDescBySim m l ↔ x = m ∨ x ∈ l := by
  induction l with
  | nil => simp [insertDescBySim]
  | cons h t ih =>
    unfold insertDescBySim
    split
    · simp [List.mem_cons]
    · simp only [List.mem_cons, ih]
      tauto

theorem pairwise_insertDescBySim (m : SimilarityMatch)
    (l : List SimilarityMatch)
    (hp : l.Pairwise (fun a b => b.Similarity ≤ a.Similarity)) :
    (insertDescBySim m l).Pairwise (fun a b => b.Similarity ≤ a.Similarity) := by
  induction l with
  | nil => simp [insertDescBySim]
  | cons h t ih =>
    rw [List.pairwise_cons] at hp
    obtain ⟨hh, ht⟩ := hp
    unfold insertDescBySim
    split
    · rename_i hlt
      refine List.Pairwise.cons ?_ (List.Pairwise.cons hh ht)
      intro z hz
      rcases List.mem_cons.mp hz with rfl | hzt
      · exact le_of_lt hlt
      · exact (hh z hzt).trans (le_of_lt hlt)
    · rename_i hnlt
      push_neg at hnlt
      refine List.Pairwise.cons ?_ (ih ht)
      intro z hz
      rcases (mem_insertDescBySim z m t).mp hz with rfl | hzt
      · exact hnlt
      · exact hh z hzt

theorem mem_sortBySimilarityDesc (x : SimilarityMatch)
    (l : List SimilarityMatch) :
    x ∈ sortBySimilarityDesc l ↔ x ∈ l := by
  induction l with
  | nil => simp [sortBySimilarityDesc]
  | cons h t ih =>
    unfold sortBySimilarityDesc at ih ⊢
    rw [List.foldr_cons, mem_insertDescBySim, ih, List.mem_cons]

theorem pairwise_sortBySimilarityDesc (l : List SimilarityMatch) :
    (sortBySimilarityDesc l).Pairwise (fun a b => b.Similarity ≤ a.Similarity) := by
  induction l with
  | nil => simp [sortBySimilarityDesc]
  | cons h t ih =>
    unfold sortBySimilarityDesc at ih ⊢
    rw [List.foldr_cons]
    exact pairwise_insertDescBySim h _ ih

/-- C6: every returned match is an entry of the requested language with
score at least the threshold (and the stored score is the query's
similarity against the entry), the output is sorted non-increasingly by
score, and its length never exceeds `maxResults`. -/
theorem claim6_findSimilar_contract (td : TermDictionary)
    (text targetLang : String) (threshold : ℚ) (maxResults : Nat) :
    (∀ m ∈ td.FindSimilarExamples text targetLang threshold maxResults,
        threshold ≤ m.Similarity ∧
        m.Similarity = calculateSimilarity text m.Example.Original ∧
        m.Example.Language = targetLang ∧
        (m.Example.Original, m.Example.Translation) ∈
          (lookupAssoc td.Terms targetLang).getD []) ∧
    (td.FindSimilarExamples text targetLang threshold maxResults).Pairwise
      (fun a b => b.Similarity ≤ a.Similarity) ∧
    (td.FindSimilarExamples text targetLang threshold maxResults).length
      ≤ maxResults := by
  have main : ∀ (L : List (String × String)) (ms : List SimilarityMatch),
      (∀ m ∈ ms, threshold ≤ m.Similarity ∧
        m.Similarity = calculateSimilarity text m.Example.Original ∧
        m.Example.Language = targetLang ∧
        (m.Example.Original, m.Example.Translation) ∈ L) →
      (∀ m ∈ (if maxResults < (sortBySimilarityDesc ms).length then
          (sortBySimilarityDesc ms).take maxResults
        else sortBySimilarityDesc ms),
        threshold ≤ m.Similarity ∧
        m.Similarity = calculateSimilarity text m.Example.Original ∧
        m.Example.Language = targetLang ∧
        (m.Example.Original, m.Example.Translation) ∈ L) ∧
      (if maxResults < (sortBySimilarityDesc ms).length then
          (sortBySimilarityDesc ms).take maxResults
        else sortBySimilarityDesc ms).Pairwise
        (fun a b => b.Similarity ≤ a.Similarity) ∧
      (if maxResults < (sortBySimilarityDesc ms).length then
          (sortBySimilarityDesc ms).take maxResults
        else sortBySimilarityDesc ms).length ≤ maxResults := by
    intro L ms hP
    refine ⟨?_, ?_, ?_⟩
    · intro m hm
      have hms : m ∈ sortBySimilarityDesc ms := by
        split at hm
        · exact List.take_subset _ _ hm
        · exact hm
      exact hP m ((mem_sortBySimilarityDesc m ms).mp hms)
    · split
      · exact List.Pairwise.sublist (List.take_sublist _ _)
          (pairwise_sortBySimilarityDesc ms)
      · exact pairwise_sortBySimilarityDesc ms
    · split
      · rename_i hgt
        rw [List.length_take]
        omega
      · rename_i hle
        omega
  unfold TermDictionary.FindSimilarExamples
  cases hlk : lookupAssoc td.Terms targetLang with
  | none =>
    simp only [hlk, Option.getD_none]
    refine main [] [] ?_
    intro m hm
    cases hm
  | some langTerms =>
    simp only [hlk, Option.getD_some]
    refine main langTerms _ ?_
    intro m hm
    obtain ⟨p, hp, hfp⟩ := List.mem_filterMap.mp hm
    split at hfp
    · rename_i hthr
      obtain rfl := Option.some.inj hfp
      refine ⟨hthr, rfl, rfl, ?_⟩
      simpa [Prod.mk.eta] using hp
    · cases hfp

/-- Witness for C6 at a one-entry dictionary: the exact-match query is
returned with its score at least the threshold. -/
theorem claim6_witness :
    ∃ m ∈ TermDictionary.FindSimilarExamples ⟨[("ja", [("Ore", "鉱石")])]⟩
        "Ore" "ja" (1/2) 3,
      (1 : ℚ)/2 ≤ m.Similarity ∧
      m.Similarity = calculateSimilarity "Ore" m.Example.Original ∧
      m.Example.Language = "ja" ∧
      (m.Example.Original, m.Example.Translation) ∈
        (lookupAssoc (⟨[("ja", [("Ore", "鉱石")])]⟩ : TermDictionary).Terms
          "ja").getD [] := by
  have hsim : calculateSimilarity "Ore" "Ore" = 1 := by
    simp +decide [calculateSimilarity, levenshteinDistance, levFuel, min3]
  have hmem : (⟨⟨"Ore", "鉱石", "ja"⟩, calculateSimilarity "Ore" "Ore"⟩ :
      SimilarityMatch) ∈
      TermDictionary.FindSimilarExamples ⟨[("ja", [("Ore", "鉱石")])]⟩
        "Ore" "ja" (1/2) 3 := by
    have hlk2 : lookupAssoc
        (⟨[("ja", [("Ore", "鉱石")])]⟩ : TermDictionary).Terms "ja"
        = some [("Ore", "鉱石")] := by decide
    have hcond : (1 : ℚ)/2 ≤ calculateSimilarity "Ore" "Ore" := by
      rw [hsim]
      norm_num
    unfold TermDictionary.FindSimilarExamples
    rw [hlk2]
    simp only [List.filterMap_cons, List.filterMap_nil, if_pos hcond]
    simp [sortBySimilarityDesc, insertDescBySim]
  exact ⟨_, hmem,
    (claim6_findSimilar_contract ⟨[("ja", [("Ore", "鉱石")])]⟩
      "Ore" "ja" (1/2) 3).1 _ hmem⟩

theorem mem_validate_missing (inputs : List String)
    (results : List BatchTranslationResult) (x : String) :
    x ∈ (ValidateBatchResults inputs results).MissingInputs ↔
      (x ∈ inputs ∧ ∀ r ∈ results, r.Input ≠ x) := by
  show x ∈ inputs.dedup.filter
      (fun i => !(results.any (fun r => r.Input == i))) ↔ _
  rw [List.mem_filter, List.mem_dedup]
  simp [List.any_eq_true]

/-- C8: validation reports success exactly when every distinct input
text occurs among the results, `MissingInputs` is exactly the set of
distinct inputs absent from the results (duplicate-free), and
`MissingCount` is its size. -/
theorem claim8_validate_contract (inputs : List String)
    (results : List BatchTranslationResult) :
    ((ValidateBatchResults inputs results).IsValid = true ↔
      ∀ i ∈ inputs, ∃ r ∈ results, r.Input = i) ∧
    (∀ x, x ∈ (ValidateBatchResults inputs results).MissingInputs ↔
      (x ∈ inputs ∧ ∀ r ∈ results, r.Input ≠ x)) ∧
    (ValidateBatchResults inputs results).MissingInputs.Nodup ∧
    (ValidateBatchResults inputs results).MissingCount =
      (ValidateBatchResults inputs results).MissingInputs.length := by
  refine ⟨?_, mem_validate_missing inputs results, ?_, rfl⟩
  · show (((inputs.dedup.filter
      (fun i => !(results.any (fun r => r.Input == i)))).length == 0) = true) ↔ _
    rw [beq_iff_eq, List.length_eq_zero]
    constructor
    · intro hM i hi
      by_contra hno
      push_neg at hno
      have hx : i ∈ (ValidateBatchResults inputs results).MissingInputs :=
        (mem_validate_missing inputs results i).mpr ⟨hi, hno⟩
      rw [show (ValidateBatchResults inputs results).MissingInputs =
        inputs.dedup.filter (fun i => !(results.any (fun r => r.Input == i)))
        from rfl, hM] at hx
      cases hx
    · intro hall
      by_contra hne
      obtain ⟨x, hx⟩ := List.exists_mem_of_ne_nil _ hne
      obtain ⟨hxi, hnone⟩ := (mem_validate_missing inputs results x).mp hx
      obtain ⟨r, hr, hrx⟩ := hall x hxi
      exact hnone r hr hrx
  · exact List.Nodup.filter _ inputs.nodup_dedup

/-- The validation of `TranslateBatchWithKeys` is computed over the
inputs extracted from the accumulated results themselves, so it always
passes. -/
theorem validateSelf (results : List BatchTranslationResult) :
    (ValidateBatchResults (results.map (fun r => r.Input)) results).IsValid
      = true := by
  show (((results.map (fun r => r.Input)).dedup.filter
      (fun i => !(results.any (fun r => r.Input == i)))).length == 0) = true
  rw [beq_iff_eq, List.length_eq_zero, List.filter_eq_nil_iff]
  intro x hx
  rw [List.mem_dedup, List.mem_map] at hx
  obtain ⟨r, hr, rfl⟩ := hx
  simp [List.any_eq_true]
  exact ⟨r, hr, rfl⟩

theorem runBatch_eq_chunks (chunkO : Option (List String) → List String →
    Except String (List BatchTranslationResult))
    (singleO : String → Except String String)
    (keys : Option (List String)) (texts : List String) (bs : Nat) :
    runBatch chunkO singleO keys texts bs =
      chunkLoopF chunkO texts.length keys texts bs := by
  unfold runBatch
  simp [validateSelf]

/-- C4: the post-chunk validation always reports `IsValid = true`
because its inputs are rebuilt from the results themselves, so the
individual-retry branch is unreachable: the outcome never depends on
the single-item translation collaborator. -/
theorem claim4_retry_unreachable :
    (∀ results : List BatchTranslationResult,
      (ValidateBatchResults (results.map (fun r => r.Input)) results).IsValid
        = true) ∧
    (∀ (apiKey : String)
      (chunkO : Option (List String) → List String →
        Except String (List BatchTranslationResult))
      (singleO1 singleO2 : String → Except String String)
      (keys : Option (List String)) (texts : List String) (batchSize : Int),
      TranslateBatchWithKeys apiKey chunkO singleO1 keys texts batchSize =
        TranslateBatchWithKeys apiKey chunkO singleO2 keys texts batchSize) := by
  refine ⟨validateSelf, ?_⟩
  intro apiKey chunkO s1 s2 keys texts batchSize
  unfold TranslateBatchWithKeys
  simp only [runBatch_eq_chunks]

theorem plainTriple_invalid (o input : String)
    (h : (o != "" && o != input) = false) : o = input ∨ o = "" := by
  by_cases ho : o = ""
  · exact Or.inr ho
  · by_cases hoi : o = input
    · exact Or.inl hoi
    · simp [ho, hoi] at h

theorem plainTriple_inv (o input : String) :
    (plainTriple o input).2.1 = false →
      (plainTriple o input).1 = input ∨ (plainTriple o input).1 = "" :=
  fun h => plainTriple_invalid o input h

theorem parseKVTriple_inv (lineContent input : String) :
    (parseKVTriple lineContent input).2.1 = false →
      (parseKVTriple lineContent input).1 = input ∨
        (parseKVTriple lineContent input).1 = "" := by
  unfold parseKVTriple
  split
  · split
    · exact plainTriple_inv _ _
    · exact plainTriple_inv _ _
  · exact plainTriple_inv _ _

theorem parseItemFields_invalid (keysMatch : Bool) (lines : List String)
    (i : Nat) (input : String) :
    (parseItemFields keysMatch lines i input).2.1 = false →
      ((parseItemFields keysMatch lines i input).1 = input ∨
        (parseItemFields keysMatch lines i input).1 = "") := by
  unfold parseItemFields
  split
  · intro _
    exact Or.inl rfl
  · split
    · split
      · exact parseKVTriple_inv _ _
      · exact plainTriple_inv _ _
    · intro _
      exact Or.inl rfl

/-- Each item the batch decoder marks invalid carries either the
original input or the empty decoded value in `Output`. -/
theorem parseBatchResponse_invalid (keys : Option (List String))
    (inputs : List String) (response : String) :
    ∀ r ∈ parseBatchResponse keys inputs response, r.IsValid = false →
      r.Output = r.Input ∨ r.Output = "" := by
  intro r hr
  unfold parseBatchResponse at hr
  obtain ⟨p, _, rfl⟩ := List.mem_map.mp hr
  exact parseItemFields_invalid _ _ _ _

/-- Every result the chunk loop emits either passes the input through
to `Output` (failed chunks) or came from a successful chunk call. -/
theorem mem_chunkLoopF_sources (chunkO : Option (List String) →
    List String → Except String (List BatchTranslationResult)) :
    ∀ (fuel : Nat) (keys : Option (List String)) (texts : List String)
      (bs : Nat) (r : BatchTranslationResult),
      r ∈ chunkLoopF chunkO fuel keys texts bs →
      r.Output = r.Input ∨
        ∃ kb tb rs, chunkO kb tb = .ok rs ∧ r ∈ rs := by
  intro fuel
  induction fuel with
  | zero =>
    intro keys texts bs r hr
    cases texts with
    | nil => exact absurd hr (List.not_mem_nil r)
    | cons t ts => exact absurd hr (List.not_mem_nil r)
  | succ fuel ih =>
    intro keys texts bs r hr
    cases texts with
    | nil => exact absurd hr (List.not_mem_nil r)
    | cons t ts =>
      simp only [chunkLoopF] at hr
      rcases List.mem_append.mp hr with hl | hrr
      · cases hc : chunkO
          (keys.map (fun ks => ks.take (Nat.min bs (t :: ts).length)))
          ((t :: ts).take (Nat.min bs (t :: ts).length)) with
        | error e =>
          rw [hc] at hl
          obtain ⟨t0, _, rfl⟩ := List.mem_map.mp hl
          exact Or.inl rfl
        | ok rs =>
          rw [hc] at hl
          exact Or.inr ⟨_, _, rs, hc, hl⟩
      · exact ih _ _ _ r hrr

/-- C2 counterexample: a plain-format batch response whose first line
is the bare ordinal `"1."` decodes to an item with `IsValid = false`
whose `Output` (the empty decoded translation) differs from `Input`. -/
theorem claim2_counterexample :
    ∃ r ∈ parseBatchResponse none ["hello"] "1.",
      r.IsValid = false ∧ r.Output ≠ r.Input := by decide

/-- C2 (amended): whenever a decoded or chunk-failed item has
`IsValid = false`, its `Output` equals its `Input` or is the empty
string (the decoder keeps a decoded-but-empty translation in `Output`
while flagging the item invalid); chunk-failure items always pass the
input through. -/
theorem claim2_amended_failsafe (apiKey : String)
    (chunkO : Option (List String) → List String →
      Except String (List BatchTranslationResult))
    (singleO : String → Except String String)
    (keys : Option (List String)) (texts : List String) (batchSize : Int)
    (res : List BatchTranslationResult)
    (hchunk : ∀ kb tb rs, chunkO kb tb = .ok rs →
      ∃ resp, rs = parseBatchResponse kb tb resp)
    (hok : TranslateBatchWithKeys apiKey chunkO singleO keys texts batchSize
      = .ok res) :
    ∀ r ∈ res, r.IsValid = false → r.Output = r.Input ∨ r.Output = "" := by
  have hres : res = chunkLoopF chunkO texts.length keys texts
      (if batchSize ≤ 0 then 1 else batchSize).toNat := by
    cases keys with
    | none =>
      unfold TranslateBatchWithKeys at hok
      split at hok
      · simp at hok
      · rw [← runBatch_eq_chunks _ singleO]
        exact (Except.ok.inj hok).symm
    | some ks =>
      unfold TranslateBatchWithKeys at hok
      split at hok
      · simp at hok
      · simp only [] at hok
        split at hok
        · simp at hok
        · rw [← runBatch_eq_chunks _ singleO]
          exact (Except.ok.inj hok).symm
  subst hres
  intro r hr hinv
  rcases mem_chunkLoopF_sources chunkO _ _ _ _ r hr with h | ⟨kb, tb, rs, hcall, hrs⟩
  · exact Or.inl h
  · obtain ⟨resp, rfl⟩ := hchunk kb tb rs hcall
    exact parseBatchResponse_invalid kb tb resp r hrs hinv

/-- Witness for C2 (amended) at a one-item run whose response is the
bare ordinal line: the invalid item's output is the input or empty. -/
theorem claim2_witness :
    (⟨"hello", "", false, "", none⟩ : BatchTranslationResult).Output =
      (⟨"hello", "", false, "", none⟩ : BatchTranslationResult).Input ∨
    (⟨"hello", "", false, "", none⟩ : BatchTranslationResult).Output = "" :=
  claim2_amended_failsafe "k"
    (fun kb tb => .ok (parseBatchResponse kb tb "1."))
    (fun t => .ok t) none ["hello"] 1
    [(⟨"hello", "", false, "", none⟩ : BatchTranslationResult)]
    (fun kb tb rs h => ⟨"1.", (Except.ok.inj h).symm⟩)
    (by rfl)
    (⟨"hello", "", false, "", none⟩ : BatchTranslationResult)
    (by decide) (by decide)

theorem take_min_len {α : Type} (l : List α) (m : Nat) :
    l.take (Nat.min m l.length) = l.take m := by
  by_cases h : m ≤ l.length
  · rw [show Nat.min m l.length = m from Nat.min_eq_left h]
  · push_neg at h
    rw [show Nat.min m l.length = l.length from Nat.min_eq_right (le_of_lt h),
      List.take_length, List.take_of_length_le (le_of_lt h)]

/-- If the chunk call for the n-th batch fails, the loop records every
text of that batch as an invalid passthrough item carrying the error
message, and keeps going. -/
theorem chunkLoopF_failed_chunk (chunkO : Option (List String) →
    List String → Except String (List BatchTranslationResult))
    (e : String) :
    ∀ (n : Nat) (keys : Option (List String)) (texts : List String)
      (fuel bs : Nat), 1 ≤ bs → texts.length ≤ fuel →
      (∀ ks, keys = some ks → ks.length = texts.length) →
      (texts.drop (bs * n)).take bs ≠ [] →
      chunkO (keys.map (fun ks => (ks.drop (bs * n)).take bs))
        ((texts.drop (bs * n)).take bs) = .error e →
      ∀ t ∈ (texts.drop (bs * n)).take bs,
        (⟨t, t, false, e, none⟩ : BatchTranslationResult) ∈
          chunkLoopF chunkO fuel keys texts bs := by
  intro n
  induction n with
  | zero =>
    intro keys texts fuel bs hbs hfuel hkl htb hfail t ht
    simp only [Nat.mul_zero, List.drop_zero] at htb hfail ht
    cases texts with
    | nil => simp at htb
    | cons t0 ts =>
      cases fuel with
      | zero => simp at hfuel
      | succ f =>
        simp only [chunkLoopF]
        have htb2 : (t0 :: ts).take (Nat.min bs (t0 :: ts).length)
            = (t0 :: ts).take bs := take_min_len _ _
        have hkb : keys.map (fun ks => ks.take (Nat.min bs (t0 :: ts).length))
            = keys.map (fun ks => ks.take bs) := by
          cases keys with
          | none => rfl
          | some ks =>
            have h1 := hkl ks rfl
            show some (ks.take (Nat.min bs (t0 :: ts).length))
              = some (ks.take bs)
            rw [← h1, take_min_len]
        rw [hkb, htb2]
        simp only [hfail]
        exact List.mem_append_left _ (List.mem_map.mpr ⟨t, ht, rfl⟩)
  | succ n ih =>
    intro keys texts fuel bs hbs hfuel hkl htb hfail t ht
    cases texts with
    | nil => simp at htb
    | cons t0 ts =>
      cases fuel with
      | zero => simp at hfuel
      | succ f =>
        have hlen : bs * (n + 1) < (t0 :: ts).length := by
          by_contra hge
          push_neg at hge
          rw [List.drop_eq_nil_of_le hge] at htb
          simp at htb
        have hble : bs ≤ (t0 :: ts).length := by
          calc bs = bs * 1 := (Nat.mul_one bs).symm
            _ ≤ bs * (n + 1) := Nat.mul_le_mul_left bs (by omega)
            _ ≤ (t0 :: ts).length := le_of_lt hlen
        have hc : Nat.min bs (t0 :: ts).length = bs := Nat.min_eq_left hble
        simp only [chunkLoopF, hc]
        refine List.mem_append_right _ ?_
        have hdd : ((t0 :: ts).drop bs).drop (bs * n)
            = (t0 :: ts).drop (bs * (n + 1)) := by
          rw [List.drop_drop]
          congr 1
          ring
        refine ih (keys.map (fun ks => ks.drop bs)) ((t0 :: ts).drop bs)
          f bs hbs ?_ ?_ ?_ ?_ t ?_
        · simp only [List.length_drop, List.length_cons] at hfuel ⊢
          omega
        · intro ks' hks'
          cases keys with
          | none => simp at hks'
          | some ks =>
            have hks2 : some (ks.drop bs) = some ks' := hks'
            obtain rfl := (Option.some.inj hks2).symm
            rw [List.length_drop, List.length_drop, hkl ks rfl]
        · rw [hdd]
          exact htb
        · have hkk : (keys.map (fun ks => ks.drop bs)).map
              (fun ks => (ks.drop (bs * n)).take bs)
              = keys.map (fun ks => (ks.drop (bs * (n + 1))).take bs) := by
            cases keys with
            | none => rfl
            | some ks =>
              show some (((ks.drop bs).drop (bs * n)).take bs) = _
              rw [List.drop_drop]
              congr 3
              ring
          rw [hkk, hdd]
          exact hfail
        · rw [hdd]
          exact ht

/-- C7: a chunk-level error never aborts the run (the call still
returns `ok`, producing exactly the loop's accumulated results), and
every text of the failed chunk appears in the results as an
`IsValid = false` item with the error message attached. -/
theorem claim7_chunk_failure_isolated (apiKey : String)
    (chunkO : Option (List String) → List String →
      Except String (List BatchTranslationResult))
    (singleO : String → Except String String)
    (keys : Option (List String)) (texts : List String) (batchSize : Int)
    (n : Nat) (e : String) (bs : Nat)
    (hbs : bs = (if batchSize ≤ 0 then 1 else batchSize).toNat)
    (hkey : apiKey ≠ "")
    (hkl : ∀ ks, keys = some ks → ks.length = texts.length)
    (htb : (texts.drop (bs * n)).take bs ≠ [])
    (hfail : chunkO (keys.map (fun ks => (ks.drop (bs * n)).take bs))
      ((texts.drop (bs * n)).take bs) = .error e) :
    TranslateBatchWithKeys apiKey chunkO singleO keys texts batchSize =
      .ok (chunkLoopF chunkO texts.length keys texts bs) ∧
    ∀ t ∈ (texts.drop (bs * n)).take bs,
      (⟨t, t, false, e, none⟩ : BatchTranslationResult) ∈
        chunkLoopF chunkO texts.length keys texts bs := by
  have hbs1 : 1 ≤ bs := by
    subst hbs
    by_cases hb : batchSize ≤ 0
    · simp [hb]
    · rw [if_neg hb]
      omega
  constructor
  · unfold TranslateBatchWithKeys
    rw [if_neg hkey]
    cases keys with
    | none =>
      rw [runBatch_eq_chunks, ← hbs]
    | some ks =>
      have hlen := hkl ks rfl
      have hcond : ¬ (ks.length ≠ texts.length) := fun hne => hne hlen
      simp only []
      rw [if_neg hcond, runBatch_eq_chunks, ← hbs]
  · exact chunkLoopF_failed_chunk chunkO e n keys texts texts.length bs
      hbs1 le_rfl hkl htb hfail

/-- Witness for C7: a three-text run with batch size 2 whose second
chunk (the text list's tail) fails with a transport error. -/
theorem claim7_witness :
    (TranslateBatchWithKeys "k" (fun _ _ => .error "boom")
        (fun _ => .ok "x") none ["a", "b", "c"] 2 =
      .ok (chunkLoopF (fun _ _ => .error "boom")
        (["a", "b", "c"] : List String).length none ["a", "b", "c"] 2)) ∧
    ∀ t ∈ ((["a", "b", "c"] : List String).drop (2 * 1)).take 2,
      (⟨t, t, false, "boom", none⟩ : BatchTranslationResult) ∈
        chunkLoopF (fun _ _ => .error "boom")
          (["a", "b", "c"] : List String).length none ["a", "b", "c"] 2 :=
  claim7_chunk_failure_isolated "k" (fun _ _ => .error "boom")
    (fun _ => .ok "x") none ["a", "b", "c"] 2 1 "boom" 2
    (by decide) (by decide) (fun ks h => nomatch h) (by decide) rfl

/-- C3: evaluation at the spec's scenario, a 3-item chunk whose batch
response is missing the ordinal line `"2."`.  The run returns exactly 3
entries, each valid or explicitly failed — but item 2 is marked
`IsValid = false` (failed to parse) and is never retried through the
single-item path, even though that path (which would return `"Bread!"`)
succeeds: the post-chunk validation always passes, so the claimed
individual retry cannot happen. -/
theorem claim3_no_individual_retry :
    TranslateBatchWithKeys "key"
      (fun kb tb => Except.ok (parseBatchResponse kb tb
        "1. Apfel\n3. Stein"))
      (fun t => .ok (t ++ "!")) none ["Apple", "Bread", "Stone"] 3 =
      .ok [⟨"Apple", "Apfel", true, "", none⟩,
        ⟨"Bread", "Bread", false,
          "Failed to parse translation from response", none⟩,
        ⟨"Stone", "Stone", false,
          "Missing translation in response", none⟩] := by rfl

theorem partitionPending_parts (dict : TermDictionary) (lang : String) :
    ∀ data : List (String × String),
      (partitionPending dict lang data).2.1
        = (partitionPending dict lang data).2.2.2 ∧
      (partitionPending dict lang data).2.2.1.length
        = (partitionPending dict lang data).2.2.2.length ∧
      ((partitionPending dict lang data).1.map Prod.fst ++
        (partitionPending dict lang data).2.2.1).Perm
        (data.map Prod.fst) := by
  intro data
  induction data with
  | nil => simp [partitionPending]
  | cons kv rest ih =>
    obtain ⟨key, value⟩ := kv
    obtain ⟨ih1, ih2, ih3⟩ := ih
    rcases hP : partitionPending dict lang rest with ⟨hits, pts, pks, pvs⟩
    rw [hP] at ih1 ih2 ih3
    simp only [partitionPending, hP]
    cases dict.GetTranslation value lang with
    | some t =>
      refine ⟨ih1, ih2, ?_⟩
      simpa using ih3.cons key
    | none =>
      refine ⟨by simpa using ih1, by simpa using ih2, ?_⟩
      simp only [List.map_cons]
      exact List.perm_middle.trans (ih3.cons key)

theorem assignPending_keys (find : String → Option BatchTranslationResult) :
    ∀ (ks vs : List String), ks.length = vs.length →
      (assignPending find ks vs).map Prod.fst = ks := by
  intro ks
  induction ks with
  | nil => intro vs _; simp [assignPending]
  | cons k ks ih =>
    intro vs hl
    cases vs with
    | nil => simp at hl
    | cons v vs =>
      simp only [assignPending, List.map_cons]
      rw [ih vs (by simpa using hl)]

theorem assignPendingGeneric_keys (tr : String → String →
    Except String String) (lang : String) :
    ∀ (vs ks : List String), vs.length = ks.length →
      (assignPendingGeneric tr lang vs ks).map Prod.fst = ks := by
  intro vs
  induction vs with
  | nil =>
    intro ks hl
    cases ks with
    | nil => simp [assignPendingGeneric]
    | cons k ks => simp at hl
  | cons v vs ih =>
    intro ks hl
    cases ks with
    | nil => simp at hl
    | cons k ks =>
      simp only [assignPendingGeneric, List.map_cons]
      rw [ih ks (by simpa using hl)]

theorem singleLoop_keys (translator : Translator) (lang : String)
    (thr : ℚ) : ∀ (data : List (String × String)) (dict : TermDictionary),
    (singleLoop translator lang thr dict data).map Prod.fst
      = data.map Prod.fst := by
  intro data
  induction data with
  | nil => intro dict; simp [singleLoop]
  | cons kv rest ih =>
    intro dict
    obtain ⟨key, value⟩ := kv
    simp only [singleLoop]
    split
    · simp [ih]
    · split
      · simp [ih]
      · simp [ih]

/-- C1: whenever `TranslateDataWithSimilarity` returns a mapping, its
keys are a permutation of the input mapping's keys — every input key is
present and no other key appears — for every translator behavior,
dictionary state, threshold and batch size. -/
theorem claim1_total_on_keys (data : List (String × String))
    (translator : Translator) (targetLang : String) (thr : ℚ)
    (batchSize : Int) (dict0 : TermDictionary)
    (result : List (String × String))
    (h : TranslateDataWithSimilarity data translator targetLang thr
      batchSize dict0 = .ok result) :
    (result.map Prod.fst).Perm (data.map Prod.fst) := by
  unfold TranslateDataWithSimilarity at h
  by_cases hbs : 1 < batchSize
  · rw [if_pos hbs] at h
    rcases hP : partitionPending dict0 targetLang data with ⟨hits, pts, pks, pvs⟩
    rw [hP] at h
    obtain ⟨h1, h2, h3⟩ := partitionPending_parts dict0 targetLang data
    rw [hP] at h1 h2 h3
    simp only [] at h h1 h2 h3
    by_cases hpe : pts.isEmpty = true
    · rw [if_pos hpe] at h
      obtain rfl := (Except.ok.inj h).symm
      have hpv : pvs = [] := by
        rw [← h1]
        exact List.isEmpty_iff.mp hpe
      have hpk : pks = [] := by
        have := h2
        rw [hpv] at this
        exact List.length_eq_zero.mp this
      rw [hpk] at h3
      simpa using h3
    · rw [if_neg hpe] at h
      cases translator with
      | openai batchO singleO =>
        simp only [] at h
        cases hb : batchO pks pts targetLang batchSize with
        | error e =>
          rw [hb] at h
          simp at h
        | ok batchResults =>
          rw [hb] at h
          obtain rfl := (Except.ok.inj h).symm
          rw [List.map_append, assignPending_keys _ pks pvs h2]
          exact h3
      | generic tr =>
        simp only [] at h
        obtain rfl := (Except.ok.inj h).symm
        rw [List.map_append, assignPendingGeneric_keys tr targetLang pts pks
          (by rw [h1, h2])]
        exact h3
  · rw [if_neg hbs] at h
    obtain rfl := (Except.ok.inj h).symm
    rw [singleLoop_keys]

/-- Witness for C1: a one-pair mapping through a generic translator at
batch size 1 keeps exactly its key. -/
theorem claim1_witness :
    ((([("a", "x")] : List (String × String)).map Prod.fst)).Perm
      (([("a", "x")] : List (String × String)).map Prod.fst) :=
  claim1_total_on_keys [("a", "x")]
    (.generic (fun v _ => .ok v)) "ja" 0 1 ⟨[]⟩ [("a", "x")] (by rfl)

theorem partitionPending_hit (dict : TermDictionary) (lang : String) :
    ∀ (data : List (String × String)) (k v t : String), (k, v) ∈ data →
      dict.GetTranslation v lang = some t →
      (k, t) ∈ (partitionPending dict lang data).1 := by
  intro data
  induction data with
  | nil => intro k v t hkv _; cases hkv
  | cons kv rest ih =>
    intro k v t hkv hdict
    rcases hP : partitionPending dict lang rest with ⟨hits, pts, pks, pvs⟩
    obtain ⟨key, value⟩ := kv
    rcases List.mem_cons.mp hkv with heq | hmem
    · injection heq with hk hv
      subst hk
      subst hv
      simp only [partitionPending, hP, hdict]
      exact List.mem_cons_self _ _
    · have hin := ih k v t hmem hdict
      rw [hP] at hin
      simp only [partitionPending, hP]
      cases dict.GetTranslation value lang with
      | some t0 => exact List.mem_cons_of_mem _ hin
      | none => exact hin

theorem partitionPending_miss (dict : TermDictionary) (lang : String) :
    ∀ (data : List (String × String)) (k v : String), (k, v) ∈ data →
      dict.GetTranslation v lang = none →
      (k, v) ∈ (partitionPending dict lang data).2.2.1.zip
        (partitionPending dict lang data).2.2.2 := by
  intro data
  induction data with
  | nil => intro k v hkv _; cases hkv
  | cons kv rest ih =>
    intro k v hkv hdict
    rcases hP : partitionPending dict lang rest with ⟨hits, pts, pks, pvs⟩
    obtain ⟨key, value⟩ := kv
    rcases List.mem_cons.mp hkv with heq | hmem
    · injection heq with hk hv
      subst hk
      subst hv
      simp only [partitionPending, hP, hdict]
      exact List.mem_cons_self _ _
    · have hin := ih k v hmem hdict
      rw [hP] at hin
      simp only [partitionPending, hP]
      cases dict.GetTranslation value lang with
      | some t0 => exact hin
      | none => exact List.mem_cons_of_mem _ hin

theorem assignPending_mem (find : String → Option BatchTranslationResult) :
    ∀ (ks vs : List String) (k v : String), (k, v) ∈ ks.zip vs →
      (k, match find v with
          | some r => if r.IsValid then r.Output else v
          | none => v) ∈ assignPending find ks vs := by
  intro ks
  induction ks with
  | nil => intro vs k v hkv; simp at hkv
  | cons k0 ks ih =>
    intro vs k v hkv
    cases vs with
    | nil => simp at hkv
    | cons v0 vs =>
      rcases List.mem_cons.mp hkv with heq | hmem
      · injection heq with hk hv
        subst hk
        subst hv
        exact List.mem_cons_self _ _
      · exact List.mem_cons_of_mem _ (ih vs k v hmem)

/-- C10: on the batch path, results are matched back to keys by source
text, so two keys carrying the same source text always receive the same
output string. -/
theorem claim10_same_text_same_output (data : List (String × String))
    (batchO : List String → List String → String → Int →
      Except String (List BatchTranslationResult))
    (singleO : String → String → List SimilarityMatch →
      Except String String)
    (targetLang : String) (thr : ℚ) (batchSize : Int)
    (dict0 : TermDictionary) (result : List (String × String))
    (k1 k2 v : String)
    (hbs : 1 < batchSize)
    (h1 : (k1, v) ∈ data) (h2 : (k2, v) ∈ data)
    (h : TranslateDataWithSimilarity data (.openai batchO singleO)
      targetLang thr batchSize dict0 = .ok result) :
    ∃ o, (k1, o) ∈ result ∧ (k2, o) ∈ result := by
  unfold TranslateDataWithSimilarity at h
  rw [if_pos hbs] at h
  rcases hP : partitionPending dict0 targetLang data with ⟨hits, pts, pks, pvs⟩
  rw [hP] at h
  obtain ⟨hpv, hlen, _⟩ := partitionPending_parts dict0 targetLang data
  rw [hP] at hpv hlen
  simp only [] at h hpv hlen
  cases hdict : dict0.GetTranslation v targetLang with
  | some t =>
    have m1 := partitionPending_hit dict0 targetLang data k1 v t h1 hdict
    have m2 := partitionPending_hit dict0 targetLang data k2 v t h2 hdict
    rw [hP] at m1 m2
    simp only [] at m1 m2
    refine ⟨t, ?_⟩
    by_cases hpe : pts.isEmpty = true
    · rw [if_pos hpe] at h
      obtain rfl := (Except.ok.inj h).symm
      exact ⟨m1, m2⟩
    · rw [if_neg hpe] at h
      cases hb : batchO pks pts targetLang batchSize with
      | error e =>
        rw [hb] at h
        simp at h
      | ok batchResults =>
        rw [hb] at h
        obtain rfl := (Except.ok.inj h).symm
        exact ⟨List.mem_append_left _ m1, List.mem_append_left _ m2⟩
  | none =>
    have m1 := partitionPending_miss dict0 targetLang data k1 v h1 hdict
    have m2 := partitionPending_miss dict0 targetLang data k2 v h2 hdict
    rw [hP] at m1 m2
    simp only [] at m1 m2
    have hvpv : v ∈ pvs := (List.of_mem_zip m1).2
    have hpe : ¬ pts.isEmpty = true := by
      rw [hpv]
      intro hh
      rw [List.isEmpty_iff.mp hh] at hvpv
      cases hvpv
    rw [if_neg hpe] at h
    cases hb : batchO pks pts targetLang batchSize with
    | error e =>
      rw [hb] at h
      simp at h
    | ok batchResults =>
      rw [hb] at h
      obtain rfl := (Except.ok.inj h).symm
      refine ⟨match lookupLastResult batchResults v with
        | some r => if r.IsValid then r.Output else v
        | none => v, ?_, ?_⟩
      · exact List.mem_append_right _ (assignPending_mem _ pks pvs k1 v m1)
      · exact List.mem_append_right _ (assignPending_mem _ pks pvs k2 v m2)

/-- Witness for C10: two keys with the same source text both receive
the translation the batch collaborator returned for that text. -/
theorem claim10_witness :
    ∃ o, ("k1", o) ∈ ([("k1", "鉱石"), ("k2", "鉱石")] :
        List (String × String)) ∧
      ("k2", o) ∈ ([("k1", "鉱石"), ("k2", "鉱石")] :
        List (String × String)) :=
  claim10_same_text_same_output [("k1", "Ore"), ("k2", "Ore")]
    (fun _ _ _ _ => .ok [⟨"Ore", "鉱石", true, "", none⟩])
    (fun _ _ _ => .ok "") "ja" 0 2 ⟨[]⟩ [("k1", "鉱石"), ("k2", "鉱石")]
    "k1" "k2" "Ore" (by decide) (by decide) (by decide) (by rfl)

/-- C9: on the concrete NBT-tagged quest document, extraction yields
exactly the mapping from `quest.1.name` to `Find Ore`, and applying the
Japanese translation back updates the `name:8` field while every other
key and value of the document is unchanged (the result is the same
document with only that field replaced). -/
theorem claim9_nbt_extract_apply :
    extractNBT [("questDatabase:9", .obj [("1", .obj [("properties:9",
        .obj [("betterquesting:9", .obj [("name:8", .str "Find Ore")])])])])]
      = [("quest.1.name", "Find Ore")] ∧
    applyNBT [("questDatabase:9", .obj [("1", .obj [("properties:9",
        .obj [("betterquesting:9", .obj [("name:8", .str "Find Ore")])])])])]
      [("quest.1.name", "鉱石を探す")]
      = [("questDatabase:9", .obj [("1", .obj [("properties:9",
        .obj [("betterquesting:9",
          .obj [("name:8", .str "鉱石を探す")])])])])] :=
  ⟨rfl, rfl⟩

/-- Witness for C5 at a pair of strings containing multi-byte runes:
`"あa"` vs `"あb"` has rune-max 2 and the formula applies. -/
theorem claim5_witness :
    Nat.max "あa".data.length "あb".data.length ≠ 0 ∧
    calculateSimilarity "あa" "あb" =
      1 - (levenshteinDistance "あa" "あb" : ℚ) /
        (Nat.max "あa".data.length "あb".data.length : ℚ) :=
  ⟨by decide, (claim5_similarity_contract "あa" "あb").2.2.1 (by decide)⟩

end MML
